import Mathlib

/-!
# Verification of the `webgl-play` procedural shading pipeline

Shallow embedding of the fragment-shader core of the repository
(`src/play.ts`, `src/webgl/shaders/blurShader.ts`, the configurable
noise shader module, and `src/webgl/useWebGLGradient.ts`) over `ℚ`.

GLSL `float` arithmetic is modelled by exact rational arithmetic.  The
transcendental builtins (`sin`, `cos`, `pow`) and the coherent-noise
primitive `simplex_noise` (whose implementation file
`src/utils/simplexNoise` is not part of the snapshot) are abstracted as
an arbitrary bundle of functions `Prim`; every theorem below is proved
for all such bundles, so it holds in particular for the real GLSL
builtins and any simplex-noise implementation.
-/

namespace WebglPlay

/-- Modelled from the spec: the coherent-noise primitive (§4.1, the
`simplex_noise` implementation is not under `src/`) together with the
GLSL transcendental builtins.  The spec requires only determinism and
continuity of the noise primitive; no theorem below depends on any
further property, so the primitives are abstracted as arbitrary
rational-valued functions. -/
structure Prim where
  sin : ℚ → ℚ
  cos : ℚ → ℚ
  pow : ℚ → ℚ → ℚ
  noise2 : ℚ → ℚ → ℚ
  noise3 : ℚ → ℚ → ℚ → ℚ

/-- The fragment-shader global environment of `src/play.ts`:
`gl_FragCoord` and the uniforms. -/
structure Env where
  fragX : ℚ
  fragY : ℚ
  time : ℚ          -- u_time
  resX : ℚ          -- u_resolution.x
  resY : ℚ          -- u_resolution.y
  speed : ℚ         -- u_speed
  waveFreqX : ℚ     -- u_waveFreq.x
  waveFreqY : ℚ     -- u_waveFreq.y
  waveAmpX : ℚ      -- u_waveAmp.x
  waveAmpY : ℚ      -- u_waveAmp.y
  color1 : ℚ × ℚ × ℚ  -- u_color1
  color2 : ℚ × ℚ × ℚ  -- u_color2

/-- `const float PI = 3.14159;` (play.ts line 17). -/
def PI : ℚ := 3.14159

/-- `float WAVE1_Y() { return 0.45 * u_resolution.y; }` -/
def WAVE1_Y (e : Env) : ℚ := 0.45 * e.resY

/-- `float WAVE2_Y() { return 0.9 * u_resolution.y; }` -/
def WAVE2_Y (e : Env) : ℚ := 0.9 * e.resY

/-- `float get_x() { return 900.0 + gl_FragCoord.x - u_resolution.x / 2.0; }` -/
def get_x (e : Env) : ℚ := 900 + e.fragX - e.resX / 2

/-- `float smoothstep_(float t) { return t*t*t*(t*(6.0*t-15.0)+10.0); }` -/
def smoothstep_ (t : ℚ) : ℚ := t * t * t * (t * (6 * t - 15) + 10)

/-- `float lerp(float a, float b, float t) { return a*(1.0-t)+b*t; }` -/
def lerp (a b t : ℚ) : ℚ := a * (1 - t) + b * t

/-- GLSL builtin `mix(a, b, t)` on floats: `a*(1-t) + b*t`. -/
def mixQ (a b t : ℚ) : ℚ := a * (1 - t) + b * t

/-- GLSL builtin `mix` on `vec3`, componentwise. -/
def mix3 (a b : ℚ × ℚ × ℚ) (t : ℚ) : ℚ × ℚ × ℚ :=
  (mixQ a.1 b.1 t, mixQ a.2.1 b.2.1 t, mixQ a.2.2 b.2.2 t)

/-- GLSL builtin `clamp(x, lo, hi) = min(max(x, lo), hi)`. -/
def clampQ (x lo hi : ℚ) : ℚ := min (max x lo) hi

/-- `float ease_in(float x) { return 1.0 - cos((x * PI) * 0.5); }` -/
def ease_in (P : Prim) (x : ℚ) : ℚ := 1 - P.cos (x * PI * 0.5)

/-- `wave_alpha_part` from play.ts (lines 38–48): one stratified sample of
the anti-aliased wave-edge coverage. -/
def wave_alpha_part (P : Prim) (dist blur_fac t : ℚ) : ℚ :=
  let exp := mixQ 0.9 1.2 t
  let v1 := P.pow blur_fac exp
  let v2 := ease_in P v1
  let v3 := smoothstep_ v2
  let v4 := clampQ v3 0.008 1
  let v5 := v4 * 345
  let alpha := clampQ (0.5 + dist / v5) 0 1
  smoothstep_ alpha

/-- The divisor-like edge-width scale computed inside `wave_alpha_part`
(the value of `v` after `v *= 345.0;`). -/
def wave_alpha_scale (P : Prim) (blur_fac t : ℚ) : ℚ :=
  clampQ (smoothstep_ (ease_in P (P.pow blur_fac (mixQ 0.9 1.2 t)))) 0.008 1 * 345

/-- `wave_alpha_part` from blurShader.ts (lines 35–45): the configurable
variant with `blurSharpnessRange` and `blurAmount`. -/
def wave_alpha_part_cfg (P : Prim) (dist blur_fac t : ℚ)
    (blurSharpnessRange : ℚ × ℚ) (blurAmount : ℚ) : ℚ :=
  let exp := mixQ blurSharpnessRange.1 blurSharpnessRange.2 t
  let v1 := P.pow blur_fac exp
  let v2 := ease_in P v1
  let v3 := smoothstep_ v2
  let v4 := clampQ v3 0.008 1
  let v5 := v4 * (345 * blurAmount)
  let alpha := clampQ (0.5 + dist / v5) 0 1
  smoothstep_ alpha

/-- `background_noise` from play.ts (lines 50–72). -/
def background_noise (P : Prim) (e : Env) (offset : ℚ) : ℚ :=
  let S_base : ℚ := 0.064
  let L_base : ℚ := 0.00085
  let F_base : ℚ := 0.04
  let L := L_base * e.waveFreqX
  let S := S_base * e.speed
  let F := F_base * e.speed
  let L1 : ℚ := 1.5; let L2 : ℚ := 0.9; let L3 : ℚ := 0.6
  let LY1 : ℚ := 1.00; let LY2 : ℚ := 0.85; let LY3 : ℚ := 0.70
  let Y_SCALE : ℚ := 1 / 0.27
  let x := get_x e * L
  let y := e.fragY * L * Y_SCALE * (e.waveFreqY / e.waveFreqX)
  let time := e.time * e.speed + offset
  let x_shift := time * F
  0.5 + P.noise3 (x * L1 + x_shift * 1.1) (y * L1 * LY1) (time * S) * 0.30
      + P.noise3 (x * L2 + -x_shift * 0.6) (y * L2 * LY2) (time * S) * 0.25
      + P.noise3 (x * L3 + x_shift * 0.8) (y * L3 * LY3) (time * S) * 0.20

/-- `wave_y_noise` from play.ts (lines 74–94). -/
def wave_y_noise (P : Prim) (e : Env) (offset : ℚ) : ℚ :=
  let L_base : ℚ := 0.000845
  let S_base : ℚ := 0.075
  let F_base : ℚ := 0.026
  let L := L_base * e.waveFreqX
  let S := S_base * e.speed
  let F := F_base * e.speed
  let time := e.time * e.speed + offset
  let x := get_x e * L
  let y := time * S
  let x_shift := time * F
  P.noise2 (x * 1.30 + x_shift) (y * 0.54) * 0.85
    + P.noise2 (x * 1.00 + x_shift) (y * 0.68) * 1.15
    + P.noise2 (x * 0.70 + x_shift) (y * 0.59) * 0.60
    + P.noise2 (x * 0.40 + x_shift) (y * 0.48) * 0.40

/-- `calc_blur_bias` from play.ts (lines 96–101). -/
def calc_blur_bias (P : Prim) (e : Env) : ℚ :=
  let S_base : ℚ := 0.261
  let S := S_base * e.speed
  let bias_t := (P.sin (e.time * S) + 1) * 0.5
  lerp (-0.17) (-0.04) bias_t

/-- `calc_blur_bias` from blurShader.ts (lines 6–11): configurable pulse
speed. -/
def calc_blur_bias_cfg (P : Prim) (e : Env) (speed pulsingSpeed : ℚ) : ℚ :=
  let S_base : ℚ := 0.261
  let S := S_base * speed * pulsingSpeed
  let bias_t := (P.sin (e.time * S) + 1) * 0.5
  lerp (-0.17) (-0.04) bias_t

/-- `calc_blur` from play.ts (lines 103–121). -/
def calc_blur (P : Prim) (e : Env) (offset : ℚ) : ℚ :=
  let L_base : ℚ := 0.0011
  let S_base : ℚ := 0.07
  let F_base : ℚ := 0.03
  let L := L_base * e.waveFreqX
  let S := S_base * e.speed
  let F := F_base * e.speed
  let time := e.time * e.speed + offset
  let x := get_x e * L
  let b0 := calc_blur_bias P e
  let b1 := b0 + P.noise2 (x * 0.60 + time * F * 1.0) (time * S * 0.7) * 0.5
  let b2 := b1 + P.noise2 (x * 1.30 + time * F * -0.8) (time * S * 1.0) * 0.4
  let b3 := (b2 + 1) * 0.5
  clampQ b3 0 1

/-- `wave_alpha` from play.ts (lines 123–136): the 7-tap coverage loop.
The GLSL `for` loop is modelled by a fold over `List.range 7`. -/
def wave_alpha (P : Prim) (e : Env) (Y wave_height offset : ℚ) : ℚ :=
  let wave_y := Y + wave_y_noise P e offset * wave_height
  let dist := wave_y - e.fragY
  let blur_fac := calc_blur P e offset
  let blurQuality : ℕ := 7
  let PART : ℚ := 1 / (blurQuality : ℚ)
  (List.range blurQuality).foldl
    (fun (sum : ℚ) (i : ℕ) =>
      let t := if blurQuality = 1 then 0.5 else PART * (i : ℚ)
      sum + wave_alpha_part P dist blur_fac t * PART) 0

/-- `calc_color` from play.ts (lines 138–141). -/
def calc_color (e : Env) (lightness : ℚ) : ℚ × ℚ × ℚ :=
  mix3 e.color1 e.color2 (clampQ lightness 0 1)

/-- The scalar lightness computed by `main` in play.ts (lines 143–153),
just before color mapping. -/
def main_lightness (P : Prim) (e : Env) : ℚ :=
  let bg_lightness := background_noise P e (-192.4)
  let w1_lightness := background_noise P e 273.3
  let w2_lightness := background_noise P e 623.1
  let w1_alpha := wave_alpha P e (WAVE1_Y e) (e.waveAmpX * e.resY) (112.5 * 48.75)
  let w2_alpha := wave_alpha P e (WAVE2_Y e) (e.waveAmpY * e.resY) (225.0 * 36.00)
  let l0 := bg_lightness
  let l1 := lerp l0 w2_lightness w2_alpha
  lerp l1 w1_lightness w1_alpha

/-- `gl_FragColor`'s RGB part from `main` in play.ts (line 155). -/
def main_color (P : Prim) (e : Env) : ℚ × ℚ × ℚ :=
  calc_color e (main_lightness P e)

/-- `background_noise` from the configurable noise shader module
(`noiseShaderFunctions`): extra `noiseScale`, `verticalStretch`,
`swirlSpeed`, `flowSpeed` parameters.  The `LY1..LY3` constants are as
declared in play.ts. -/
def background_noise_cfg (P : Prim) (e : Env)
    (offset waveFreqX waveFreqY speed noiseScale verticalStretch
     swirlSpeed flowSpeed : ℚ) : ℚ :=
  let S_base : ℚ := 0.064
  let L_base : ℚ := 0.00085
  let F_base : ℚ := 0.04
  let L := L_base * waveFreqX * noiseScale
  let S := S_base * speed * swirlSpeed
  let F := F_base * speed * flowSpeed
  let L1 : ℚ := 1.5; let L2 : ℚ := 0.9; let L3 : ℚ := 0.6
  let LY1 : ℚ := 1.00; let LY2 : ℚ := 0.85; let LY3 : ℚ := 0.70
  let Y_SCALE : ℚ := 1 / 0.27 * verticalStretch
  let x := get_x e * L
  let y := e.fragY * L * Y_SCALE * (waveFreqY / waveFreqX)
  let time := e.time * speed + offset
  let x_shift := time * F
  0.5 + P.noise3 (x * L1 + x_shift * 1.1) (y * L1 * LY1) (time * S) * 0.30
      + P.noise3 (x * L2 + -x_shift * 0.6) (y * L2 * LY2) (time * S) * 0.25
      + P.noise3 (x * L3 + x_shift * 0.8) (y * L3 * LY3) (time * S) * 0.20

/-- `wave_y_noise` from the configurable noise shader module. -/
def wave_y_noise_cfg (P : Prim) (e : Env)
    (offset waveFreqX speed noiseScale flowSpeed : ℚ) : ℚ :=
  let L_base : ℚ := 0.000845
  let S_base : ℚ := 0.075
  let F_base : ℚ := 0.026
  let L := L_base * waveFreqX * noiseScale
  let S := S_base * speed
  let F := F_base * speed * flowSpeed
  let time := e.time * speed + offset
  let x := get_x e * L
  let y := time * S
  let x_shift := time * F
  P.noise2 (x * 1.30 + x_shift) (y * 0.54) * 0.85
    + P.noise2 (x * 1.00 + x_shift) (y * 0.68) * 1.15
    + P.noise2 (x * 0.70 + x_shift) (y * 0.59) * 0.60
    + P.noise2 (x * 0.40 + x_shift) (y * 0.48) * 0.40

/-! ## Shared helper lemmas -/

theorem clampQ_le_hi (x lo hi : ℚ) : clampQ x lo hi ≤ hi :=
  min_le_right _ _

theorem lo_le_clampQ (x : ℚ) {lo hi : ℚ} (h : lo ≤ hi) : lo ≤ clampQ x lo hi :=
  le_min (le_max_right _ _) h

theorem clampQ_mono {x y : ℚ} (lo hi : ℚ) (h : x ≤ y) :
    clampQ x lo hi ≤ clampQ y lo hi :=
  min_le_min (max_le_max h le_rfl) le_rfl

theorem clampQ_eq_lo {x lo hi : ℚ} (hx : x ≤ lo) (hlh : lo ≤ hi) :
    clampQ x lo hi = lo := by
  unfold clampQ
  rw [max_eq_right hx, min_eq_left hlh]

theorem clampQ_eq_hi {x lo hi : ℚ} (hx : hi ≤ x) (hlh : lo ≤ hi) :
    clampQ x lo hi = hi := by
  unfold clampQ
  rw [max_eq_left (hlh.trans hx), min_eq_right hx]

theorem clampQ_eq_self {x lo hi : ℚ} (hlo : lo ≤ x) (hhi : x ≤ hi) :
    clampQ x lo hi = x := by
  unfold clampQ
  rw [max_eq_left hlo, min_eq_left hhi]

theorem smoothstep_nonneg {t : ℚ} (h0 : 0 ≤ t) : 0 ≤ smoothstep_ t := by
  unfold smoothstep_
  nlinarith [sq_nonneg t, sq_nonneg (t - 1), sq_nonneg (2 * t - 3),
    mul_nonneg (mul_nonneg h0 h0) h0]

theorem smoothstep_le_one {t : ℚ} (h0 : 0 ≤ t) (h1 : t ≤ 1) : smoothstep_ t ≤ 1 := by
  unfold smoothstep_
  nlinarith [mul_nonneg (mul_nonneg (sub_nonneg.2 h1) (sub_nonneg.2 h1)) (sub_nonneg.2 h1),
    sq_nonneg t, mul_nonneg h0 h0]

theorem smoothstep_mono {a b : ℚ} (h0 : 0 ≤ a) (hab : a ≤ b) :
    smoothstep_ a ≤ smoothstep_ b := by
  have hb0 : 0 ≤ b := le_trans h0 hab
  have hd : 0 ≤ b - a := sub_nonneg.2 hab
  unfold smoothstep_
  nlinarith [mul_nonneg (mul_nonneg hd (mul_nonneg h0 hb0)) (sq_nonneg (a + b - 2)),
    mul_nonneg hd (mul_nonneg (sq_nonneg (a - b)) (sq_nonneg (a + b - 4/3))),
    mul_nonneg hd (sq_nonneg ((a - b) * (a - b)))]

theorem smoothstep_zero : smoothstep_ 0 = 0 := by norm_num [smoothstep_]

theorem smoothstep_one : smoothstep_ 1 = 1 := by norm_num [smoothstep_]

/-- `wave_alpha_part` is the smoothstep of the clamped, scale-divided
signed distance, with `wave_alpha_scale` the divisor. -/
theorem wave_alpha_part_eq (P : Prim) (dist blur_fac t : ℚ) :
    wave_alpha_part P dist blur_fac t =
      smoothstep_ (clampQ (0.5 + dist / wave_alpha_scale P blur_fac t) 0 1) := rfl

theorem wave_alpha_scale_lb (P : Prim) (blur_fac t : ℚ) :
    2.76 ≤ wave_alpha_scale P blur_fac t := by
  unfold wave_alpha_scale
  have h := lo_le_clampQ (smoothstep_ (ease_in P (P.pow blur_fac (mixQ 0.9 1.2 t))))
    (show (0.008 : ℚ) ≤ 1 by norm_num)
  nlinarith

theorem wave_alpha_scale_ub (P : Prim) (blur_fac t : ℚ) :
    wave_alpha_scale P blur_fac t ≤ 345 := by
  unfold wave_alpha_scale
  have h := clampQ_le_hi (smoothstep_ (ease_in P (P.pow blur_fac (mixQ 0.9 1.2 t)))) 0.008 1
  nlinarith

theorem wave_alpha_scale_pos (P : Prim) (blur_fac t : ℚ) :
    0 < wave_alpha_scale P blur_fac t :=
  lt_of_lt_of_le (by norm_num) (wave_alpha_scale_lb P blur_fac t)

theorem wave_alpha_part_nonneg (P : Prim) (dist blur_fac t : ℚ) :
    0 ≤ wave_alpha_part P dist blur_fac t := by
  rw [wave_alpha_part_eq]
  exact smoothstep_nonneg (lo_le_clampQ _ (by norm_num))

theorem wave_alpha_part_le_one (P : Prim) (dist blur_fac t : ℚ) :
    wave_alpha_part P dist blur_fac t ≤ 1 := by
  rw [wave_alpha_part_eq]
  exact smoothstep_le_one (lo_le_clampQ _ (by norm_num)) (clampQ_le_hi _ _ _)

theorem wave_alpha_part_mono (P : Prim) (blur_fac t : ℚ) {d₁ d₂ : ℚ}
    (h : d₁ ≤ d₂) :
    wave_alpha_part P d₁ blur_fac t ≤ wave_alpha_part P d₂ blur_fac t := by
  rw [wave_alpha_part_eq, wave_alpha_part_eq]
  have hpos := wave_alpha_scale_pos P blur_fac t
  have hdiv : d₁ / wave_alpha_scale P blur_fac t ≤ d₂ / wave_alpha_scale P blur_fac t :=
    (div_le_div_iff_of_pos_right hpos).2 h
  exact smoothstep_mono (lo_le_clampQ _ (by norm_num))
    (clampQ_mono 0 1 (by linarith))

theorem wave_alpha_part_eq_zero (P : Prim) (blur_fac t : ℚ) {d : ℚ}
    (h : d ≤ -(345 / 2)) : wave_alpha_part P d blur_fac t = 0 := by
  rw [wave_alpha_part_eq]
  have hpos := wave_alpha_scale_pos P blur_fac t
  have hub := wave_alpha_scale_ub P blur_fac t
  have hdiv : d / wave_alpha_scale P blur_fac t ≤ -(1/2) := by
    rw [div_le_iff₀ hpos]
    nlinarith
  rw [clampQ_eq_lo (by linarith) (by norm_num), smoothstep_zero]

theorem wave_alpha_part_eq_one (P : Prim) (blur_fac t : ℚ) {d : ℚ}
    (h : 345 / 2 ≤ d) : wave_alpha_part P d blur_fac t = 1 := by
  rw [wave_alpha_part_eq]
  have hpos := wave_alpha_scale_pos P blur_fac t
  have hub := wave_alpha_scale_ub P blur_fac t
  have hdiv : (1/2 : ℚ) ≤ d / wave_alpha_scale P blur_fac t := by
    rw [le_div_iff₀ hpos]
    nlinarith
  rw [clampQ_eq_hi (by linarith) (by norm_num), smoothstep_one]

/-- The 7-tap loop of `wave_alpha` computes the unweighted mean of the
7 stratified samples at `t = i/7`. -/
theorem wave_alpha_eq_mean (P : Prim) (e : Env) (Y wave_height offset : ℚ) :
    wave_alpha P e Y wave_height offset =
      (∑ i ∈ Finset.range 7,
        wave_alpha_part P (Y + wave_y_noise P e offset * wave_height - e.fragY)
          (calc_blur P e offset) ((i : ℚ) / 7)) / 7 := by
  have hr : List.range 7 = [0, 1, 2, 3, 4, 5, 6] := rfl
  unfold wave_alpha
  dsimp only
  rw [hr]
  simp only [List.foldl, Finset.sum_range_succ, Finset.sum_range_zero]
  norm_num
  ring

/-- An environment with its `gl_FragCoord.y` replaced (used to speak about
"the same pixel column, moved vertically"). -/
def setFragY (e : Env) (y : ℚ) : Env := { e with fragY := y }

/-- A concrete primitive bundle used to instantiate universally
quantified theorems: all primitives constantly zero. -/
def P0 : Prim :=
  { sin := fun _ => 0, cos := fun _ => 0, pow := fun _ _ => 0,
    noise2 := fun _ _ => 0, noise3 := fun _ _ _ => 0 }

/-- A concrete environment used to instantiate universally quantified
theorems. -/
def E0 : Env :=
  { fragX := 0, fragY := 0, time := 0, resX := 800, resY := 1000,
    speed := 0, waveFreqX := 1, waveFreqY := 1, waveAmpX := 0, waveAmpY := 0,
    color1 := (0, 0, 0), color2 := (1, 1, 1) }

/-! ## Claim theorems -/

/-- C1: for every signed distance and blur factor, `wave_alpha` is the
unweighted mean of exactly 7 samples at `t = i/7` (`i = 0..6`), where each
sample raises `blur_fac` to `lerp(blurSharpnessMin, blurSharpnessMax, t)`
(0.9 and 1.2 in the reference), applies the ease-in curve, then the
smoothstep polynomial, clamps to a floor of 0.008, scales by
`345 * blurAmount` (with `blurAmount = 1` in the reference), and returns
`smoothstep(clamp(0.5 + dist/scaled_v, 0, 1))`. -/
theorem wave_alpha_is_mean_of_seven_samples :
    (∀ (P : Prim) (e : Env) (Y wave_height offset : ℚ),
      wave_alpha P e Y wave_height offset =
        (∑ i ∈ Finset.range 7,
          wave_alpha_part_cfg P
            (Y + wave_y_noise P e offset * wave_height - e.fragY)
            (calc_blur P e offset) ((i : ℚ) / 7) (0.9, 1.2) 1) / 7)
    ∧ ∀ (P : Prim) (dist blur_fac t shMin shMax blurAmount : ℚ),
        wave_alpha_part_cfg P dist blur_fac t (shMin, shMax) blurAmount =
          smoothstep_ (clampQ (0.5 + dist /
            (clampQ (smoothstep_ (ease_in P
              (P.pow blur_fac (lerp shMin shMax t)))) 0.008 1
                * (345 * blurAmount))) 0 1) := by
  constructor
  · intro P e Y wave_height offset
    rw [wave_alpha_eq_mean]
    congr 1
    apply Finset.sum_congr rfl
    intro i _
    simp [wave_alpha_part, wave_alpha_part_cfg]
  · intro P dist blur_fac t shMin shMax blurAmount
    rfl

/-- C5: `calc_blur` always lands in [0,1] (so the base of the `pow` call
in the blur-exponent path — `calc_blur`'s output — is non-negative), the
7-tap mean `wave_alpha` lands in [0,1], and the divisor-like edge-width
scale of every sample is clamped to at least 0.008 before the ×345
scaling, hence at least 2.76 and never near zero. -/
theorem calc_blur_wave_alpha_range :
    ∀ (P : Prim) (e : Env) (offset : ℚ),
      (0 ≤ calc_blur P e offset ∧ calc_blur P e offset ≤ 1)
    ∧ (∀ Y wave_height : ℚ,
        0 ≤ wave_alpha P e Y wave_height offset
        ∧ wave_alpha P e Y wave_height offset ≤ 1)
    ∧ (∀ blur_fac t : ℚ,
        0.008 ≤ clampQ (smoothstep_ (ease_in P
            (P.pow blur_fac (mixQ 0.9 1.2 t)))) 0.008 1
        ∧ 2.76 ≤ wave_alpha_scale P blur_fac t
        ∧ wave_alpha_scale P blur_fac t ≤ 345) := by
  intro P e offset
  refine ⟨⟨?_, ?_⟩, ?_, ?_⟩
  · exact lo_le_clampQ _ (by norm_num)
  · exact clampQ_le_hi _ _ _
  · intro Y wave_height
    rw [wave_alpha_eq_mean]
    constructor
    · apply div_nonneg _ (by norm_num)
      apply Finset.sum_nonneg
      intro i _
      exact wave_alpha_part_nonneg _ _ _ _
    · rw [div_le_one (by norm_num)]
      calc (∑ i ∈ Finset.range 7,
              wave_alpha_part P (Y + wave_y_noise P e offset * wave_height - e.fragY)
                (calc_blur P e offset) ((i : ℚ) / 7))
          ≤ ∑ _i ∈ Finset.range 7, (1 : ℚ) :=
            Finset.sum_le_sum fun i _ => wave_alpha_part_le_one _ _ _ _
        _ = 7 := by simp
  · intro blur_fac t
    exact ⟨lo_le_clampQ _ (by norm_num), wave_alpha_scale_lb P blur_fac t,
      wave_alpha_scale_ub P blur_fac t⟩

/-- C9 (implicit): for fixed `blur_fac ∈ [0,1]` and any sample index,
`wave_alpha_part` is monotonically non-decreasing in the signed distance,
hence the 7-tap mean `wave_alpha` never decreases as the pixel moves
deeper inside the wave (smaller `gl_FragCoord.y`); the coverage is
exactly 0 once the distance is below −345/2 and exactly 1 once it is
above 345/2. -/
theorem wave_alpha_monotone_in_dist :
    (∀ (P : Prim) (blur_fac t : ℚ), 0 ≤ blur_fac → blur_fac ≤ 1 →
      ∀ d₁ d₂ : ℚ, d₁ ≤ d₂ →
        wave_alpha_part P d₁ blur_fac t ≤ wave_alpha_part P d₂ blur_fac t)
    ∧ (∀ (P : Prim) (e : Env) (Y wave_height offset y₁ y₂ : ℚ), y₂ ≤ y₁ →
        wave_alpha P (setFragY e y₁) Y wave_height offset
          ≤ wave_alpha P (setFragY e y₂) Y wave_height offset)
    ∧ (∀ (P : Prim) (e : Env) (Y wave_height offset : ℚ),
        (Y + wave_y_noise P e offset * wave_height - e.fragY ≤ -(345 / 2) →
          wave_alpha P e Y wave_height offset = 0)
        ∧ (345 / 2 ≤ Y + wave_y_noise P e offset * wave_height - e.fragY →
          wave_alpha P e Y wave_height offset = 1)) := by
  refine ⟨?_, ?_, ?_⟩
  · intro P blur_fac t _ _ d₁ d₂ h
    exact wave_alpha_part_mono P blur_fac t h
  · intro P e Y wave_height offset y₁ y₂ h
    have hnoise : ∀ y, wave_y_noise P (setFragY e y) offset = wave_y_noise P e offset := by
      intro y; rfl
    have hblur : ∀ y, calc_blur P (setFragY e y) offset = calc_blur P e offset := by
      intro y; rfl
    rw [wave_alpha_eq_mean, wave_alpha_eq_mean, hnoise, hnoise, hblur, hblur]
    apply (div_le_div_iff_of_pos_right (by norm_num : (0:ℚ) < 7)).2
    apply Finset.sum_le_sum
    intro i _
    apply wave_alpha_part_mono
    show Y + wave_y_noise P e offset * wave_height - y₁
      ≤ Y + wave_y_noise P e offset * wave_height - y₂
    linarith
  · intro P e Y wave_height offset
    constructor
    · intro h
      rw [wave_alpha_eq_mean]
      rw [Finset.sum_congr rfl fun i _ => wave_alpha_part_eq_zero P _ _ h]
      simp
    · intro h
      rw [wave_alpha_eq_mean]
      rw [Finset.sum_congr rfl fun i _ => wave_alpha_part_eq_one P _ _ h]
      norm_num

/-- C2: the final lightness is `lerp(lerp(background, wave2_lightness,
wave2_alpha), wave1_lightness, wave1_alpha)` (background → wave2 → wave1,
wave 1 painted last); consequently wherever `wave1_alpha = 1` the final
lightness is wave 1's local lightness `background_noise(273.3)`,
regardless of `wave2_alpha`, `wave2_lightness` and the background. -/
theorem main_lightness_compositing :
    ∀ (P : Prim) (e : Env),
      main_lightness P e =
        lerp
          (lerp (background_noise P e (-192.4)) (background_noise P e 623.1)
            (wave_alpha P e (WAVE2_Y e) (e.waveAmpY * e.resY) (225.0 * 36.00)))
          (background_noise P e 273.3)
          (wave_alpha P e (WAVE1_Y e) (e.waveAmpX * e.resY) (112.5 * 48.75))
    ∧ (∀ bg w2l w2a w1l : ℚ, lerp (lerp bg w2l w2a) w1l 1 = w1l)
    ∧ (wave_alpha P e (WAVE1_Y e) (e.waveAmpX * e.resY) (112.5 * 48.75) = 1 →
        main_lightness P e = background_noise P e 273.3) := by
  intro P e
  refine ⟨rfl, ?_, ?_⟩
  · intro bg w2l w2a w1l
    simp [lerp]
  · intro h
    show lerp _ (background_noise P e 273.3)
      (wave_alpha P e (WAVE1_Y e) (e.waveAmpX * e.resY) (112.5 * 48.75)) = _
    rw [h]
    simp [lerp]

/-- The three background octaves as described by the claim:
(spatial frequency multiplier, amplitude weight, flow multiplier-and-sign,
vertical-stretch factor). -/
def bgOctaves : List (ℚ × ℚ × ℚ × ℚ) :=
  [(1.5, 0.30, 1.1, 1.00), (0.9, 0.25, -0.6, 0.85), (0.6, 0.20, 0.8, 0.70)]

/-- The claim's description of the background field: 0.5 plus the sum of
the three 3D-noise octaves of `bgOctaves`, each octave's flow-shift term
added to the x-coordinate before noise evaluation. -/
def background_noise_octsum (P : Prim) (x y time S xshift : ℚ) : ℚ :=
  0.5 + (bgOctaves.map (fun o =>
    P.noise3 (x * o.1 + xshift * o.2.2.1) (y * o.1 * o.2.2.2) (time * S)
      * o.2.1)).sum

/-- C3: `background_noise` is 0.5 plus the sum of exactly three 3D-noise
octaves with spatial frequency multipliers 1.5, 0.9, 0.6, amplitude
weights 0.30, 0.25, 0.20 (paired in that order), and per-octave
horizontal flow-shift multipliers-and-signs 1.1, −0.6, 0.8 added to the
x-coordinate before noise evaluation. -/
theorem background_noise_three_octaves :
    (∀ (P : Prim) (e : Env) (offset : ℚ),
      background_noise P e offset =
        background_noise_octsum P
          (get_x e * (0.00085 * e.waveFreqX))
          (e.fragY * (0.00085 * e.waveFreqX) * (1 / 0.27)
            * (e.waveFreqY / e.waveFreqX))
          (e.time * e.speed + offset)
          (0.064 * e.speed)
          ((e.time * e.speed + offset) * (0.04 * e.speed)))
    ∧ bgOctaves.length = 3
    ∧ bgOctaves.map (fun o => o.1) = [1.5, 0.9, 0.6]
    ∧ bgOctaves.map (fun o => o.2.1) = [0.30, 0.25, 0.20]
    ∧ bgOctaves.map (fun o => o.2.2.1) = [1.1, -0.6, 0.8] := by
  refine ⟨?_, rfl, ?_, ?_, ?_⟩
  · intro P e offset
    simp only [background_noise, background_noise_octsum, bgOctaves, List.map,
      List.sum_cons, List.sum_nil]
    ring_nf
  · norm_num [bgOctaves]
  · norm_num [bgOctaves]
  · norm_num [bgOctaves]

/-- The four wave-Y octaves as described by the claim:
(x-frequency multiplier, amplitude weight, y-frequency multiplier). -/
def waveYOctaves : List (ℚ × ℚ × ℚ) :=
  [(1.30, 0.85, 0.54), (1.00, 1.15, 0.68), (0.70, 0.60, 0.59), (0.40, 0.40, 0.48)]

/-- The claim's description of the wave-Y field: the sum of the four
2D-noise octaves of `waveYOctaves`, with ONE shared horizontal flow shift
`xshift` added identically to the x-coordinate of every octave. -/
def wave_y_noise_octsum (P : Prim) (x y xshift : ℚ) : ℚ :=
  (waveYOctaves.map (fun o =>
    P.noise2 (x * o.1 + xshift) (y * o.2.2) * o.2.1)).sum

/-- C4: `wave_y_noise` is the sum of exactly four 2D-noise octaves with
x-frequency multipliers 1.30, 1.00, 0.70, 0.40 and (unnormalized) weights
0.85, 1.15, 0.60, 0.40, a single shared flow shift (rate
`0.026 × speed × flowSpeed`) added identically to every octave's
x-coordinate, and a temporal rate `0.075 × speed` tied to raw speed with
no per-field multiplier (the configurable variant takes no `swirlSpeed`
argument at all; its y-rate is `0.075 × speed` exactly). -/
theorem wave_y_noise_four_octaves :
    (∀ (P : Prim) (e : Env) (offset : ℚ),
      wave_y_noise P e offset =
        wave_y_noise_octsum P
          (get_x e * (0.000845 * e.waveFreqX))
          ((e.time * e.speed + offset) * (0.075 * e.speed))
          ((e.time * e.speed + offset) * (0.026 * e.speed)))
    ∧ (∀ (P : Prim) (e : Env) (offset waveFreqX speed noiseScale flowSpeed : ℚ),
      wave_y_noise_cfg P e offset waveFreqX speed noiseScale flowSpeed =
        wave_y_noise_octsum P
          (get_x e * (0.000845 * waveFreqX * noiseScale))
          ((e.time * speed + offset) * (0.075 * speed))
          ((e.time * speed + offset) * (0.026 * speed * flowSpeed)))
    ∧ waveYOctaves.length = 4
    ∧ waveYOctaves.map (fun o => o.1) = [1.30, 1.00, 0.70, 0.40]
    ∧ waveYOctaves.map (fun o => o.2.1) = [0.85, 1.15, 0.60, 0.40]
    ∧ ((waveYOctaves.map (fun o => o.2.1)).sum = 3) := by
  refine ⟨?_, ?_, rfl, ?_, ?_, by norm_num [waveYOctaves]⟩
  · intro P e offset
    simp only [wave_y_noise, wave_y_noise_octsum, waveYOctaves, List.map,
      List.sum_cons, List.sum_nil]
    ring_nf
  · intro P e offset waveFreqX speed noiseScale flowSpeed
    simp only [wave_y_noise_cfg, wave_y_noise_octsum, waveYOctaves, List.map,
      List.sum_cons, List.sum_nil]
    ring_nf
  · norm_num [waveYOctaves]
  · norm_num [waveYOctaves]

/-- C6: noise evaluations read the horizontal position only through
`logical_x = 900 + pixelX - viewportWidth/2`; two evaluations at possibly
different viewport widths and pixel X whose logical x coincide (all other
inputs equal) produce identical background-field values — and likewise
for the wave-Y and blur fields. -/
theorem logical_x_resize_invariance :
    (∀ e : Env, get_x e = 900 + e.fragX - e.resX / 2)
    ∧ ∀ (P : Prim) (e₁ e₂ : Env) (offset : ℚ),
        900 + e₁.fragX - e₁.resX / 2 = 900 + e₂.fragX - e₂.resX / 2 →
        e₁.fragY = e₂.fragY → e₁.time = e₂.time → e₁.speed = e₂.speed →
        e₁.waveFreqX = e₂.waveFreqX → e₁.waveFreqY = e₂.waveFreqY →
        background_noise P e₁ offset = background_noise P e₂ offset
        ∧ wave_y_noise P e₁ offset = wave_y_noise P e₂ offset
        ∧ calc_blur P e₁ offset = calc_blur P e₂ offset := by
  refine ⟨fun e => rfl, ?_⟩
  intro P e₁ e₂ offset hx hy ht hs hfx hfy
  have hgx : get_x e₁ = get_x e₂ := hx
  refine ⟨?_, ?_, ?_⟩
  · simp only [background_noise]
    rw [hgx, hy, ht, hs, hfx, hfy]
  · simp only [wave_y_noise]
    rw [hgx, ht, hs, hfx]
  · simp only [calc_blur, calc_blur_bias]
    rw [hgx, ht, hs, hfx]

theorem mixQ_bounds {a b t : ℚ} (h0 : 0 ≤ t) (h1 : t ≤ 1) :
    min a b ≤ mixQ a b t ∧ mixQ a b t ≤ max a b := by
  unfold mixQ
  constructor
  · rcases le_total a b with h | h
    · rw [min_eq_left h]; nlinarith
    · rw [min_eq_right h]; nlinarith
  · rcases le_total a b with h | h
    · rw [max_eq_right h]; nlinarith
    · rw [max_eq_left h]; nlinarith

/-- The spec's description of color mapping (§4.6): piecewise-linear
interpolation through the ColorRamp stops, componentwise between the
bracketing pair of stops. -/
def rampEval : List (ℚ × (ℚ × ℚ × ℚ)) → ℚ → ℚ × ℚ × ℚ
  | [], _ => (0, 0, 0)
  | [(_, c)], _ => c
  | (p₁, c₁) :: (p₂, c₂) :: rest, x =>
    if x ≤ p₂ then
      (lerp c₁.1 c₂.1 ((x - p₁) / (p₂ - p₁)),
       lerp c₁.2.1 c₂.2.1 ((x - p₁) / (p₂ - p₁)),
       lerp c₁.2.2 c₂.2.2 ((x - p₁) / (p₂ - p₁)))
    else rampEval ((p₂, c₂) :: rest) x

/-- C7: `calc_color` clamps lightness to [0,1] and then piecewise-linearly
interpolates through the shader's two-stop color ramp (u_color1 at 0,
u_color2 at 1), componentwise; for every finite lightness — also outside
[0,1] — it returns a color whose components lie between the corresponding
stop components (total, no error, no out-of-range blow-up). -/
theorem calc_color_clamp_then_ramp :
    ∀ (e : Env) (lightness : ℚ),
      calc_color e lightness =
        rampEval [(0, e.color1), (1, e.color2)] (clampQ lightness 0 1)
    ∧ calc_color e lightness = calc_color e (clampQ lightness 0 1)
    ∧ (min e.color1.1 e.color2.1 ≤ (calc_color e lightness).1
        ∧ (calc_color e lightness).1 ≤ max e.color1.1 e.color2.1)
    ∧ (min e.color1.2.1 e.color2.2.1 ≤ (calc_color e lightness).2.1
        ∧ (calc_color e lightness).2.1 ≤ max e.color1.2.1 e.color2.2.1)
    ∧ (min e.color1.2.2 e.color2.2.2 ≤ (calc_color e lightness).2.2
        ∧ (calc_color e lightness).2.2 ≤ max e.color1.2.2 e.color2.2.2) := by
  intro e lightness
  have h0 : (0 : ℚ) ≤ clampQ lightness 0 1 := lo_le_clampQ _ (by norm_num)
  have h1 : clampQ lightness 0 1 ≤ 1 := clampQ_le_hi _ _ _
  refine ⟨?_, ?_, ?_, ?_, ?_⟩
  · rw [rampEval, if_pos h1]
    simp only [calc_color, mix3, lerp, mixQ]
    norm_num
  · simp only [calc_color, clampQ_eq_self h0 h1]
  · exact mixQ_bounds h0 h1
  · exact mixQ_bounds h0 h1
  · exact mixQ_bounds h0 h1

/-- C8: the blur bias is the sinusoidal oscillator
`lerp(-0.17, -0.04, (sin(t·S)+1)/2)` with rate `S = 0.261 × speed ×
pulsingSpeed` (configurable variant; the play.ts reference uses
`S = 0.261 × u_speed`); it depends only on time and parameters — any two
pixels (environments differing arbitrarily in position/resolution) with
the same time (and, for the reference, the same speed uniform) get the
same bias. -/
theorem calc_blur_bias_pulsing :
    (∀ (P : Prim) (e : Env) (speed pulsingSpeed : ℚ),
      calc_blur_bias_cfg P e speed pulsingSpeed =
        lerp (-0.17) (-0.04)
          ((P.sin (e.time * (0.261 * speed * pulsingSpeed)) + 1) * 0.5))
    ∧ (∀ (P : Prim) (e₁ e₂ : Env) (speed pulsingSpeed : ℚ),
        e₁.time = e₂.time →
        calc_blur_bias_cfg P e₁ speed pulsingSpeed =
          calc_blur_bias_cfg P e₂ speed pulsingSpeed)
    ∧ (∀ (P : Prim) (e₁ e₂ : Env),
        e₁.time = e₂.time → e₁.speed = e₂.speed →
        calc_blur_bias P e₁ = calc_blur_bias P e₂) := by
  refine ⟨fun P e speed pulsingSpeed => rfl, ?_, ?_⟩
  · intro P e₁ e₂ speed pulsingSpeed ht
    simp only [calc_blur_bias_cfg]
    rw [ht]
  · intro P e₁ e₂ ht hs
    simp only [calc_blur_bias]
    rw [ht, hs]

/-! ## Witnesses -/

/-- Concrete environment: viewport width 800, pixel X 100
(`logical_x = 900 + 100 - 400 = 600`). -/
def E1 : Env := { E0 with resX := 800, fragX := 100 }

/-- Concrete environment: viewport width 1000, pixel X 200
(`logical_x = 900 + 200 - 500 = 600`, same as `E1`). -/
def E2 : Env := { E0 with resX := 1000, fragX := 200 }

/-- Concrete environment differing from `E0` only in pixel position and
resolution. -/
def E3 : Env := { E0 with fragX := 50, resX := 640 }

/-- Witness for C2: at the all-zero primitives and `E0`, wave 1's
coverage is exactly 1, and the composited lightness is wave 1's local
lightness. -/
theorem main_lightness_compositing_witness :
    main_lightness P0 E0 = background_noise P0 E0 273.3 := by
  apply (main_lightness_compositing P0 E0).2.2
  rw [wave_alpha_eq_mean]
  have hd : 345 / 2 ≤ WAVE1_Y E0
      + wave_y_noise P0 E0 (112.5 * 48.75) * (E0.waveAmpX * E0.resY) - E0.fragY := by
    norm_num [E0, WAVE1_Y, wave_y_noise, P0, get_x]
  rw [Finset.sum_congr rfl fun i _ => wave_alpha_part_eq_one P0 _ _ hd]
  norm_num

/-- Witness for C6: two environments with different viewport widths but
the same logical x produce identical field values. -/
theorem logical_x_resize_invariance_witness :
    background_noise P0 E1 0 = background_noise P0 E2 0
    ∧ wave_y_noise P0 E1 0 = wave_y_noise P0 E2 0
    ∧ calc_blur P0 E1 0 = calc_blur P0 E2 0 :=
  logical_x_resize_invariance.2 P0 E1 E2 0 (by norm_num [E1, E2, E0]) rfl rfl
    rfl rfl rfl

/-- Witness for C8: the blur bias agrees across two environments that
differ in pixel position and resolution. -/
theorem calc_blur_bias_pulsing_witness :
    calc_blur_bias_cfg P0 E0 1 1 = calc_blur_bias_cfg P0 E3 1 1
    ∧ calc_blur_bias P0 E0 = calc_blur_bias P0 E3 :=
  ⟨calc_blur_bias_pulsing.2.1 P0 E0 E3 1 1 rfl,
   calc_blur_bias_pulsing.2.2 P0 E0 E3 rfl rfl⟩

/-- Witness for C9: monotonicity and the saturation limits of the
coverage at concrete inputs. -/
theorem wave_alpha_monotone_in_dist_witness :
    wave_alpha_part P0 0 (1/2) 0 ≤ wave_alpha_part P0 450 (1/2) 0
    ∧ wave_alpha P0 (setFragY E0 1) (-200) 0 0
        ≤ wave_alpha P0 (setFragY E0 0) (-200) 0 0
    ∧ wave_alpha P0 E0 (-200) 0 0 = 0
    ∧ wave_alpha P0 E0 200 0 0 = 1 := by
  refine ⟨?_, ?_, ?_, ?_⟩
  · exact wave_alpha_monotone_in_dist.1 P0 (1/2) 0 (by norm_num) (by norm_num)
      0 450 (by norm_num)
  · exact wave_alpha_monotone_in_dist.2.1 P0 E0 (-200) 0 0 1 0 (by norm_num)
  · exact (wave_alpha_monotone_in_dist.2.2 P0 E0 (-200) 0 0).1
      (by norm_num [E0])
  · exact (wave_alpha_monotone_in_dist.2.2 P0 E0 200 0 0).2
      (by norm_num [E0])

/-! ## The gradient texture generator (`useWebGLGradient.ts`) -/

/-- A gradient color stop (`src/webgl/types.ts`). -/
structure ColorStop where
  id : ℤ
  position : ℚ
  color : String

/-- The value of one hexadecimal digit character, if valid. -/
def hexDigit (c : Char) : Option ℕ :=
  if '0' ≤ c ∧ c ≤ '9' then some (c.toNat - '0'.toNat)
  else if 'a' ≤ c ∧ c ≤ 'f' then some (c.toNat - 'a'.toNat + 10)
  else if 'A' ≤ c ∧ c ≤ 'F' then some (c.toNat - 'A'.toNat + 10)
  else none

/-- JS `parseInt(s, 16)` on the two-character strings built by
`hexToRgb`: parses the longest valid hex prefix.  An entirely invalid
string yields `NaN` in JS, which the downstream `Math.round` and
`Uint8Array` store turn into the byte 0; that case is collapsed to the
value 0 here. -/
def parseHex2 (c₁ c₂ : Char) : ℕ :=
  match hexDigit c₁, hexDigit c₂ with
  | some a, some b => 16 * a + b
  | some a, none => a
  | none, _ => 0

/-- JS `hex.replace('#', '')`: removes the first occurrence of `#`. -/
def removeFirstHash : List Char → List Char
  | [] => []
  | c :: cs => if c = '#' then cs else c :: removeFirstHash cs

/-- `hexToRgb` (useWebGLGradient.ts lines 611–626): returns normalized
components in [0,1]; strings that are neither 3 nor 6 hex chars (after
`#`-removal) keep the initial `r = g = b = 0`. -/
def hexToRgb (hex : String) : ℚ × ℚ × ℚ :=
  match removeFirstHash hex.toList with
  | [c₁, c₂, c₃] =>
      ((parseHex2 c₁ c₁ : ℚ) / 255, (parseHex2 c₂ c₂ : ℚ) / 255,
       (parseHex2 c₃ c₃ : ℚ) / 255)
  | [c₁, c₂, c₃, c₄, c₅, c₆] =>
      ((parseHex2 c₁ c₂ : ℚ) / 255, (parseHex2 c₃ c₄ : ℚ) / 255,
       (parseHex2 c₅ c₆ : ℚ) / 255)
  | _ => (0, 0, 0)

/-- `lerpColor` (useWebGLGradient.ts lines 631–641). -/
def lerpColor (c₁ c₂ : ℚ × ℚ × ℚ) (t : ℚ) : ℚ × ℚ × ℚ :=
  (c₁.1 * (1 - t) + c₂.1 * t,
   c₁.2.1 * (1 - t) + c₂.2.1 * t,
   c₁.2.2 * (1 - t) + c₂.2.2 * t)

/-- JS `Math.round` (round half toward +∞). -/
def jsRound (q : ℚ) : ℤ := ⌊q + 1 / 2⌋

/-- Storing a number into a `Uint8Array` entry (JS `ToUint8`:
the integer modulo 256). -/
def toUint8 (z : ℤ) : ℕ := (z % 256).toNat

/-- JS falsy-default `s || dflt` for an optional string (`undefined` and
the empty string are falsy). -/
def jsOrColor (c : Option String) (dflt : String) : String :=
  match c with
  | none => dflt
  | some s => if s = "" then dflt else s

/-- `[...stops].sort((a, b) => a.position - b.position)` — a stable sort
by position. -/
def sortStops (stops : List ColorStop) : List ColorStop :=
  stops.mergeSort (fun a b => decide (a.position ≤ b.position))

/-- The first "add implicit start stop if missing" block (lines 71–73):
`if (sortedStops.length === 0 || sortedStops[0].position !== 0)
 sortedStops.unshift(...)`.  `now` stands for `Date.now()`, which is only
stored in the never-read `id` field. -/
def withStartStop (now : ℤ) (s₀ : List ColorStop) : List ColorStop :=
  if s₀.length = 0 ∨ (s₀.head?.map (fun s => s.position)) ≠ some 0 then
    { id := now, position := 0,
      color := jsOrColor (s₀.head?.map (fun s => s.color)) "#000000" } :: s₀
  else s₀

/-- The second "add implicit end stop if missing" block (lines 74–76):
`if (sortedStops[sortedStops.length - 1].position !== 1.0)
 sortedStops.push(...)`. -/
def withEndStop (now : ℤ) (s₁ : List ColorStop) : List ColorStop :=
  if (s₁.getLast?.map (fun s => s.position)) ≠ some 1 then
    s₁ ++ [{ id := now + 1, position := 1,
             color := jsOrColor (s₁.getLast?.map (fun s => s.color)) "#ffffff" }]
  else s₁

/-- The sorted stop list with implicit boundary stops added
(lines 68–76). -/
def normalizeStops (now : ℤ) (stops : List ColorStop) : List ColorStop :=
  withEndStop now (withStartStop now (sortStops stops))

/-- `sortedStops[k]`; every access made by the generator is in bounds, so
the default is never read. -/
def stopAt (stops : List ColorStop) (k : ℕ) : ColorStop :=
  stops.getD k { id := 0, position := 0, color := "" }

/-- The inner `while` loop advancing `currentStopIndex` (lines 83–85),
as a fuel-bounded recursion (the index grows strictly, so
`stops.length` fuel always suffices). -/
def advanceIdx (stops : List ColorStop) (t : ℚ) : ℕ → ℕ → ℕ
  | idx, 0 => idx
  | idx, fuel + 1 =>
    if idx < stops.length - 2 ∧ t > (stopAt stops (idx + 1)).position then
      advanceIdx stops t (idx + 1) fuel
    else idx

/-- One pixel of the gradient texture: the four RGBA bytes written at
`i*4 .. i*4+3`, together with the interpolation divisor used
(recorded so that theorems can speak about it). -/
structure Pixel where
  divisor : ℚ
  rgba : List ℕ

/-- The body of the `for` loop for one `i` (lines 87–101), at the already
advanced stop index. -/
def pixelAt (stops : List ColorStop) (t : ℚ) (idx : ℕ) : Pixel :=
  let stop1 := stopAt stops idx
  let stop2 := stopAt stops (idx + 1)
  let divisor := stop2.position - stop1.position + 1 / 1000000
  let segmentT := (t - stop1.position) / divisor
  let clampedSegmentT := max 0 (min 1 segmentT)
  let color1Rgb := hexToRgb stop1.color
  let color2Rgb := hexToRgb stop2.color
  let c := lerpColor color1Rgb color2Rgb clampedSegmentT
  { divisor := divisor,
    rgba := [toUint8 (jsRound (c.1 * 255)), toUint8 (jsRound (c.2.1 * 255)),
             toUint8 (jsRound (c.2.2 * 255)), 255] }

/-- The `for` loop over pixels (lines 79–102): `n` pixels starting at
pixel `i`, threading the persistent `currentStopIndex`. -/
def pixelsAux (stops : List ColorStop) (width : ℕ) : ℕ → ℕ → ℕ → List Pixel
  | _idx, _i, 0 => []
  | idx, i, n + 1 =>
    let t : ℚ := (i : ℚ) / ((width : ℚ) - 1)
    let idx' := advanceIdx stops t idx stops.length
    pixelAt stops t idx' :: pixelsAux stops width idx' (i + 1) n

/-- `generateGradientTextureData` (useWebGLGradient.ts lines 66–104) —
the returned `Uint8Array` as a list of bytes (the caller uses
`width = 256`). -/
def generateGradientTextureData (now : ℤ) (stops : List ColorStop)
    (width : ℕ) : List ℕ :=
  ((pixelsAux (normalizeStops now stops) width 0 0 width).map
    (fun p => p.rgba)).flatten

/-! ### Shape and byte-range lemmas for the gradient generator -/

theorem toUint8_le (z : ℤ) : toUint8 z ≤ 255 := by
  unfold toUint8
  have h := Int.emod_lt_of_pos z (show (0:ℤ) < 256 by norm_num)
  exact Int.toNat_le.2 (by omega)

theorem pixelAt_rgba_length (stops : List ColorStop) (t : ℚ) (idx : ℕ) :
    (pixelAt stops t idx).rgba.length = 4 := rfl

theorem pixelAt_alpha (stops : List ColorStop) (t : ℚ) (idx : ℕ) :
    (pixelAt stops t idx).rgba.getD 3 0 = 255 := rfl

theorem pixelAt_bytes (stops : List ColorStop) (t : ℚ) (idx : ℕ) :
    ∀ b ∈ (pixelAt stops t idx).rgba, b ≤ 255 := by
  intro b hb
  simp only [pixelAt, List.mem_cons, List.mem_singleton] at hb
  rcases hb with h | h | h | h | h
  · exact h ▸ toUint8_le _
  · exact h ▸ toUint8_le _
  · exact h ▸ toUint8_le _
  · exact h ▸ le_refl _
  · exact absurd h (List.not_mem_nil b)

theorem pixelsAux_length (stops : List ColorStop) (width : ℕ) :
    ∀ (n idx i : ℕ), (pixelsAux stops width idx i n).length = n := by
  intro n
  induction n with
  | zero => intro idx i; rfl
  | succ n ih =>
    intro idx i
    simp only [pixelsAux, List.length_cons, ih]

theorem generateGradientTextureData_length
    (now : ℤ) (stops : List ColorStop) (width : ℕ) :
    (generateGradientTextureData now stops width).length = width * 4 := by
  unfold generateGradientTextureData
  rw [List.length_flatten]
  set s := normalizeStops now stops
  have : ∀ (n idx i : ℕ),
      (List.map List.length ((pixelsAux s width idx i n).map (fun p => p.rgba))).sum
        = n * 4 := by
    intro n
    induction n with
    | zero => intro idx i; rfl
    | succ n ih =>
      intro idx i
      simp only [pixelsAux, List.map_cons, List.sum_cons, ih, pixelAt_rgba_length]
      ring
  exact this width 0 0

theorem generateGradientTextureData_bytes
    (now : ℤ) (stops : List ColorStop) (width : ℕ) :
    ∀ b ∈ generateGradientTextureData now stops width, b ≤ 255 := by
  unfold generateGradientTextureData
  set s := normalizeStops now stops
  have key : ∀ (n idx i : ℕ) (b : ℕ),
      b ∈ ((pixelsAux s width idx i n).map (fun p => p.rgba)).flatten → b ≤ 255 := by
    intro n
    induction n with
    | zero => intro idx i b hb; simp [pixelsAux] at hb
    | succ n ih =>
      intro idx i b hb
      simp only [pixelsAux, List.map_cons, List.flatten_cons, List.mem_append] at hb
      rcases hb with hb | hb
      · exact pixelAt_bytes _ _ _ b hb
      · exact ih _ _ b hb
  intro b hb
  exact key width 0 0 b hb

theorem generateGradientTextureData_alpha
    (now : ℤ) (stops : List ColorStop) (width : ℕ) :
    ∀ j < width, (generateGradientTextureData now stops width).getD (4 * j + 3) 0 = 255 := by
  unfold generateGradientTextureData
  set s := normalizeStops now stops
  have key : ∀ (n idx i j : ℕ), j < n →
      (((pixelsAux s width idx i n).map (fun p => p.rgba)).flatten).getD (4 * j + 3) 0
        = 255 := by
    intro n
    induction n with
    | zero => intro idx i j hj; omega
    | succ n ih =>
      intro idx i j hj
      simp only [pixelsAux, List.map_cons, List.flatten_cons]
      cases j with
      | zero =>
        rw [List.getD_append _ _ _ _ (by rw [pixelAt_rgba_length]; omega)]
        exact pixelAt_alpha _ _ _
      | succ j =>
        rw [List.getD_append_right _ _ _ _ (by rw [pixelAt_rgba_length]; omega)]
        rw [pixelAt_rgba_length]
        have : 4 * (j + 1) + 3 - 4 = 4 * j + 3 := by omega
        rw [this]
        exact ih _ _ j (by omega)
  intro j hj
  exact key width 0 0 j hj

/-! ### Normalization lemmas for the gradient generator -/

theorem sortStops_sorted (stops : List ColorStop) :
    List.Pairwise (fun a b => a.position ≤ b.position) (sortStops stops) := by
  have h := @List.sorted_mergeSort ColorStop
    (fun (a b : ColorStop) => decide (a.position ≤ b.position))
    (fun a b c hab hbc => by
      simp only [decide_eq_true_eq] at hab hbc ⊢
      exact le_trans hab hbc)
    (fun a b => by
      simp only [Bool.or_eq_true, decide_eq_true_eq]
      exact le_total a.position b.position)
    stops
  exact h.imp (fun hab => by simpa using hab)

theorem withStartStop_head (now : ℤ) (s₀ : List ColorStop) :
    ∃ a t, withStartStop now s₀ = a :: t ∧ a.position = 0 := by
  unfold withStartStop
  by_cases hC : s₀.length = 0 ∨ (s₀.head?.map (fun s => s.position)) ≠ some 0
  · rw [if_pos hC]
    exact ⟨_, s₀, rfl, rfl⟩
  · rw [if_neg hC]
    push_neg at hC
    obtain ⟨hlen, hhead⟩ := hC
    cases s₀ with
    | nil => simp at hlen
    | cons a t =>
      refine ⟨a, t, rfl, ?_⟩
      simpa using hhead

theorem withEndStop_cons (now : ℤ) (a : ColorStop) (t : List ColorStop) :
    ∃ t', withEndStop now (a :: t) = a :: t' := by
  unfold withEndStop
  by_cases hD : ((a :: t).getLast?.map (fun s => s.position)) ≠ some 1
  · rw [if_pos hD]
    exact ⟨_, rfl⟩
  · rw [if_neg hD]
    exact ⟨t, rfl⟩

theorem withEndStop_last (now : ℤ) (s₁ : List ColorStop) :
    (withEndStop now s₁).getLast?.map (fun s => s.position) = some 1 := by
  unfold withEndStop
  by_cases hD : (s₁.getLast?.map (fun s => s.position)) ≠ some 1
  · rw [if_pos hD, List.getLast?_concat]
    rfl
  · rw [if_neg hD]
    push_neg at hD
    exact hD

/-- After normalization the stop list starts with a position-0 stop,
ends with a position-1 stop, and has at least two stops. -/
theorem normalizeStops_spec (now : ℤ) (stops : List ColorStop) :
    (stopAt (normalizeStops now stops) 0).position = 0
    ∧ (stopAt (normalizeStops now stops)
        ((normalizeStops now stops).length - 1)).position = 1
    ∧ 2 ≤ (normalizeStops now stops).length := by
  obtain ⟨a, t, h₁, ha⟩ := withStartStop_head now (sortStops stops)
  obtain ⟨t', h₂⟩ := withEndStop_cons now a t
  have hnorm : normalizeStops now stops = a :: t' := by
    rw [normalizeStops, h₁, h₂]
  have hlast : (normalizeStops now stops).getLast?.map (fun s => s.position)
      = some 1 := by
    rw [normalizeStops, h₁]
    exact withEndStop_last now (a :: t)
  refine ⟨?_, ?_, ?_⟩
  · rw [hnorm]
    simpa [stopAt] using ha
  · rw [List.getLast?_eq_getElem?] at hlast
    rw [stopAt, List.getD_eq_getElem?_getD]
    cases hx : (normalizeStops now stops)[(normalizeStops now stops).length - 1]? with
    | none => rw [hx] at hlast; simp at hlast
    | some s =>
      rw [hx] at hlast
      simp only [Option.map_some', Option.some.injEq] at hlast
      simp [hx, hlast]
  · rw [hnorm]
    cases t' with
    | nil =>
      exfalso
      rw [hnorm] at hlast
      simp [ha] at hlast
    | cons b t'' => simp

/-! ### The index walk and the interpolation divisor -/

theorem advanceIdx_le (stops : List ColorStop) (t : ℚ) :
    ∀ (fuel idx : ℕ), idx ≤ stops.length - 2 →
      advanceIdx stops t idx fuel ≤ stops.length - 2 := by
  intro fuel
  induction fuel with
  | zero => intro idx h; exact h
  | succ fuel ih =>
    intro idx h
    unfold advanceIdx
    split
    · next hc => exact ih (idx + 1) (by omega)
    · exact h

theorem advanceIdx_inv (stops : List ColorStop) (t : ℚ) :
    ∀ (fuel idx : ℕ),
      (idx = 0 ∨ (stopAt stops idx).position < t) →
      (advanceIdx stops t idx fuel = 0
        ∨ (stopAt stops (advanceIdx stops t idx fuel)).position < t) := by
  intro fuel
  induction fuel with
  | zero => intro idx h; exact h
  | succ fuel ih =>
    intro idx h
    unfold advanceIdx
    split
    · next hc => exact ih (idx + 1) (Or.inr hc.2)
    · exact h

theorem advanceIdx_exit (stops : List ColorStop) (t : ℚ) :
    ∀ (fuel idx : ℕ), stops.length - 2 ≤ idx + fuel →
      ¬(advanceIdx stops t idx fuel < stops.length - 2
        ∧ t > (stopAt stops (advanceIdx stops t idx fuel + 1)).position) := by
  intro fuel
  induction fuel with
  | zero =>
    intro idx hf
    unfold advanceIdx
    intro hcon
    omega
  | succ fuel ih =>
    intro idx hf
    unfold advanceIdx
    split
    · next hc => exact ih (idx + 1) (by omega)
    · next hc => exact hc

/-- For a normalized stop list (first position 0, last position 1) and a
pixel parameter `t ∈ [0,1]`, the divisor `stop2.position - stop1.position
+ 1e-6` of the pair selected by the index walk is strictly positive. -/
theorem pixelAt_divisor_pos (stops : List ColorStop)
    (h0 : (stopAt stops 0).position = 0)
    (h1 : (stopAt stops (stops.length - 1)).position = 1)
    (hlen : 2 ≤ stops.length)
    (t : ℚ) (ht0 : 0 ≤ t) (ht1 : t ≤ 1)
    (idx : ℕ) (hidx : idx ≤ stops.length - 2)
    (hinv : idx = 0 ∨ (stopAt stops idx).position < t) :
    0 < (pixelAt stops t (advanceIdx stops t idx stops.length)).divisor := by
  set k := advanceIdx stops t idx stops.length with hk
  have hkle : k ≤ stops.length - 2 := advanceIdx_le stops t stops.length idx hidx
  have hkinv : k = 0 ∨ (stopAt stops k).position < t :=
    advanceIdx_inv stops t stops.length idx hinv
  have hexit := advanceIdx_exit stops t stops.length idx (by omega)
  rw [← hk] at hexit
  show 0 < (stopAt stops (k + 1)).position - (stopAt stops k).position + 1 / 1000000
  rcases not_and_or.mp hexit with hne | hle
  · have hk2 : k = stops.length - 2 := le_antisymm hkle (not_lt.mp hne)
    have hk1 : k + 1 = stops.length - 1 := by omega
    rw [hk1, h1]
    rcases hkinv with h | h
    · rw [h, h0]; norm_num
    · linarith
  · have hle' : t ≤ (stopAt stops (k + 1)).position := not_lt.mp hle
    rcases hkinv with h | h
    · rw [h, h0]; rw [h] at hle'; linarith
    · linarith

/-- Every pixel generated by the loop, starting from a valid persistent
index, has a strictly positive divisor. -/
theorem pixelsAux_divisor_pos (stops : List ColorStop)
    (h0 : (stopAt stops 0).position = 0)
    (h1 : (stopAt stops (stops.length - 1)).position = 1)
    (hlen : 2 ≤ stops.length) (width : ℕ) :
    ∀ (n i idx : ℕ), i + n ≤ width →
      (idx = 0 ∨ (stopAt stops idx).position < (i : ℚ) / ((width : ℚ) - 1)) →
      idx ≤ stops.length - 2 →
      ∀ p ∈ pixelsAux stops width idx i n, 0 < p.divisor := by
  intro n
  induction n with
  | zero => intro i idx _ _ _ p hp; simp [pixelsAux] at hp
  | succ n ih =>
    intro i idx hin hinv hidx p hp
    simp only [pixelsAux, List.mem_cons] at hp
    have hwq : (0 : ℚ) ≤ (width : ℚ) - 1 := by
      have h1' : (1 : ℕ) ≤ width := by omega
      have : (1 : ℚ) ≤ (width : ℚ) := by exact_mod_cast h1'
      linarith
    have ht0 : 0 ≤ (i : ℚ) / ((width : ℚ) - 1) :=
      div_nonneg (by positivity) hwq
    have ht1 : (i : ℚ) / ((width : ℚ) - 1) ≤ 1 := by
      rcases eq_or_lt_of_le hwq with heq | hpos
      · rw [show ((width : ℚ) - 1) = 0 from heq.symm, div_zero]
        norm_num
      · rw [div_le_one hpos]
        have h1' : (i : ℕ) + 1 ≤ width := by omega
        have : ((i : ℕ) : ℚ) + 1 ≤ (width : ℚ) := by exact_mod_cast h1'
        linarith
    rcases hp with rfl | hp
    · exact pixelAt_divisor_pos stops h0 h1 hlen _ ht0 ht1 idx hidx hinv
    · have hmono : (i : ℚ) / ((width : ℚ) - 1)
          ≤ ((i + 1 : ℕ) : ℚ) / ((width : ℚ) - 1) := by
        rcases eq_or_lt_of_le hwq with heq | hpos
        · rw [show ((width : ℚ) - 1) = 0 from heq.symm, div_zero, div_zero]
        · apply (div_le_div_iff_of_pos_right hpos).2
          push_cast
          linarith
      have hinv' := advanceIdx_inv stops ((i : ℚ) / ((width : ℚ) - 1))
        stops.length idx hinv
      refine ih (i + 1) (advanceIdx stops ((i : ℚ) / ((width : ℚ) - 1))
        idx stops.length) (by omega) ?_
        (advanceIdx_le stops _ stops.length idx hidx) p hp
      rcases hinv' with h | h
      · exact Or.inl h
      · exact Or.inr (lt_of_lt_of_le h hmono)

/-- C10 (implicit): `generateGradientTextureData` is total and defensive
for every stop list (empty, unsorted, or not covering [0,1]): it sorts
the stops, inserts synthetic boundary stops so the normalized list starts
at position 0 and ends at position 1, always returns exactly `width × 4`
bytes, every pixel's alpha byte is 255, every component is a byte in
[0,255], and the `+1e-6`-guarded per-segment interpolation divisor is
strictly positive — never zero — at every pixel. -/
theorem generateGradientTextureData_defensive :
    ∀ (now : ℤ) (stops : List ColorStop) (width : ℕ),
      List.Pairwise (fun a b => a.position ≤ b.position) (sortStops stops)
      ∧ (stopAt (normalizeStops now stops) 0).position = 0
      ∧ (stopAt (normalizeStops now stops)
          ((normalizeStops now stops).length - 1)).position = 1
      ∧ (generateGradientTextureData now stops width).length = width * 4
      ∧ (∀ j < width,
          (generateGradientTextureData now stops width).getD (4 * j + 3) 0 = 255)
      ∧ (∀ b ∈ generateGradientTextureData now stops width, b ≤ 255)
      ∧ (∀ p ∈ pixelsAux (normalizeStops now stops) width 0 0 width,
          0 < p.divisor ∧ p.divisor ≠ 0) := by
  intro now stops width
  obtain ⟨h0, h1, hlen⟩ := normalizeStops_spec now stops
  refine ⟨sortStops_sorted stops, h0, h1,
    generateGradientTextureData_length now stops width,
    generateGradientTextureData_alpha now stops width,
    generateGradientTextureData_bytes now stops width, ?_⟩
  intro p hp
  have hpos : 0 < p.divisor :=
    pixelsAux_divisor_pos (normalizeStops now stops) h0 h1 hlen width
      width 0 0 (by omega) (Or.inl rfl) (by omega) p hp
  exact ⟨hpos, ne_of_gt hpos⟩

/-- Witness for C10: at the empty stop list and width 2, the generator's
guarantees instantiate to concrete facts. -/
theorem generateGradientTextureData_defensive_witness :
    (generateGradientTextureData 0 [] 2).length = 2 * 4
    ∧ (generateGradientTextureData 0 [] 2).getD 3 0 = 255
    ∧ (generateGradientTextureData 0 [] 2).getD 7 0 = 255 := by
  refine ⟨(generateGradientTextureData_defensive 0 [] 2).2.2.2.1, ?_, ?_⟩
  · exact (generateGradientTextureData_defensive 0 [] 2).2.2.2.2.1 0 (by norm_num)
  · exact (generateGradientTextureData_defensive 0 [] 2).2.2.2.2.1 1 (by norm_num)

end WebglPlay
